import Mathlib

/-!
Verification of the format-selection and download-orchestration core of the
YouTube-video-Downloader repository (`you_dlp.py`).

The Python functions `get_video_formats`, `sanitize_filename` and
`download_video` are shallowly embedded below.  Dictionaries produced by the
extraction backend are modelled by the structure `RawFmt` whose fields are
`Option`-valued exactly where the Python code reads them with `dict.get`
(an absent key).  Python's stable `sorted`/`list.sort` is modelled by
Mathlib's `List.insertionSort`, which is extensionally equal to any stable
sort for the same ordering.  The transient `format_key` strings
(`f"complete_{height}_{fps}"`, `f"video_merge_{height}_{fps}"`,
`f"audio_only_{abr}"`) are modelled by the inductive `FormatKey`; the three
prefixes are distinct and the decimal renderings of the numeric arguments
contain no separator character, so equality of the Python key strings
coincides with equality of `FormatKey` values.
-/

/-- A raw format descriptor as returned by the extraction backend:
one entry of `result['formats']` in `get_video_formats`.  Fields are
`Option`-valued where the source reads them with `.get(...)` and an absent
key is meaningful. -/
structure RawFmt where
  format_id : String := ""
  vcodec : Option String := none
  acodec : Option String := none
  height : Option Nat := none
  width : Option Nat := none
  fps : Option Nat := none
  tbr : Option Nat := none
  abr : Option Nat := none
  ext : Option String := none
  filesize : Option Nat := none
  filesize_approx : Option Nat := none
deriving Repr, DecidableEq

/-- One entry of the menu list built by `get_video_formats`
(the dict appended to `formats`). -/
structure MenuEntry where
  format_id : String
  resolution : String
  has_video : Bool
  has_audio : Bool
  height : Nat
  ext : String
  filesize : Nat
  merge_needed : Bool
  best_audio_id : Option String
  priority : Nat
  fps : Nat
deriving Repr, DecidableEq

/-- Model of the transient `format_key` strings used for deduplication in
`get_video_formats`.  `complete h f` stands for `f"complete_{h}_{f}"`,
`videoMerge h f` for `f"video_merge_{h}_{f}"` and `audioOnly a` for
`f"audio_only_{abr}"` where an absent `abr` prints as `"unknown"`. -/
inductive FormatKey where
  | complete (h f : Nat)
  | videoMerge (h f : Nat)
  | audioOnly (a : Option Nat)
deriving Repr, DecidableEq

/-- The filter selecting audio-only descriptors in `get_video_formats`:
`f.get('acodec') != 'none' and f.get('vcodec') == 'none'`.
Note the raw `.get` without default: an absent `acodec` is Python `None`,
which differs from the string `'none'`. -/
def isAudioCandidate (f : RawFmt) : Bool :=
  f.acodec ≠ some "none" ∧ f.vcodec = some "none"

/-- Audio-only descriptors of an input list (`audio_formats` in the source). -/
def audioFormatsOf (l : List RawFmt) : List RawFmt :=
  l.filter isAudioCandidate

/-- The key of Python's `max(audio_formats, key=lambda x: x.get('abr', 0))`. -/
def abrKey (f : RawFmt) : Nat := f.abr.getD 0

/-- Python's `max` over a nonempty list with a key function: scans left to
right and replaces the current best only on a strictly greater key, so the
first element attaining the maximal key is returned. -/
def pyMaxAbr (cur : RawFmt) : List RawFmt → RawFmt
  | [] => cur
  | f :: rest => pyMaxAbr (if abrKey cur < abrKey f then f else cur) rest

/-- `best_audio` in `get_video_formats`: maximal-`abr` audio-only descriptor,
or `none` when no audio-only descriptor exists. -/
def bestAudioOf (l : List RawFmt) : Option RawFmt :=
  match audioFormatsOf l with
  | [] => none
  | g :: gs => some (pyMaxAbr g gs)

/-- Sort key of the pre-classification sort:
`(x.get('height', 0), x.get('width', 0), x.get('tbr', 0))`. -/
def qualKey (f : RawFmt) : Nat × Nat × Nat :=
  (f.height.getD 0, f.width.getD 0, f.tbr.getD 0)

/-- Lexicographic `≤` on the quality-key triples. -/
def tripleLe : Nat × Nat × Nat → Nat × Nat × Nat → Bool
  | (a1, b1, c1), (a2, b2, c2) =>
    a1 < a2 ∨ (a1 = a2 ∧ (b1 < b2 ∨ (b1 = b2 ∧ c1 ≤ c2)))

/-- Ordering used to model `sorted(..., reverse=True)`: `f` precedes `g`
when `f`'s quality key is at least `g`'s, so a stable sort places higher
quality first and preserves input order on ties. -/
def qualRel (f g : RawFmt) : Prop := tripleLe (qualKey g) (qualKey f) = true

instance : DecidableRel qualRel := fun f g => by unfold qualRel; infer_instance

/-- `sorted_formats` in `get_video_formats`: descending stable sort of the
raw descriptors by `(height, width, tbr)` with missing values as 0. -/
def sortedFormatsOf (l : List RawFmt) : List RawFmt :=
  l.insertionSort qualRel

/-- The classification of a single descriptor inside the loop of
`get_video_formats`: returns the `(format_key, menu entry)` the loop body
would append, or `none` when the body hits a `continue`. -/
def classify (best_audio : Option RawFmt) (show_all : Bool) (f : RawFmt) :
    Option (FormatKey × MenuEntry) :=
  -- `if not f or not f.get('format_id'): continue`
  if f.format_id = "" then none
  else
    let vcodec := f.vcodec.getD "none"
    let acodec := f.acodec.getD "none"
    let ext := f.ext.getD "mp4"
    -- `filesize = f.get('filesize') or f.get('filesize_approx', 0)`
    let filesize :=
      if f.filesize.getD 0 = 0 then f.filesize_approx.getD 0 else f.filesize.getD 0
    -- `if vcodec == 'none' and not show_all: continue`
    if vcodec = "none" ∧ show_all = false then none
    -- `if vcodec != 'none' and height:` (0 and absent are both falsy)
    else if vcodec ≠ "none" ∧ f.height.getD 0 ≠ 0 then
      let h := f.height.getD 0
      let fpsv := f.fps.getD 0
      let fps_str := if fpsv ≠ 0 then s!"@{fpsv}fps" else ""
      let mb := filesize / 1024 / 1024
      let size_str := if 0 < filesize then s!" ({mb}MB)" else ""
      if acodec ≠ "none" then
        -- video+audio: complete
        some (FormatKey.complete h fpsv,
          { format_id := f.format_id
            resolution := s!"{h}p{fps_str} ✅ Complete{size_str}"
            has_video := vcodec ≠ "none"
            has_audio := acodec ≠ "none"
            height := f.height.getD 0
            ext := ext
            filesize := filesize
            merge_needed := false
            best_audio_id := none
            priority := 1
            fps := f.fps.getD 0 })
      else
        -- video only: needs merging with audio
        let audio_info :=
          match best_audio with
          | some ba =>
            let kbps := ba.abr.getD 128
            s!" + {kbps}kbps audio"
          | none => ""
        some (FormatKey.videoMerge h fpsv,
          { format_id := f.format_id
            resolution := s!"{h}p{fps_str} 🔄 Auto-merge{audio_info}{size_str}"
            has_video := vcodec ≠ "none"
            has_audio := acodec ≠ "none"
            height := f.height.getD 0
            ext := ext
            filesize := filesize
            merge_needed := true
            best_audio_id := best_audio.map (fun g => g.format_id)
            priority := 2
            fps := f.fps.getD 0 })
    -- `elif acodec != 'none' and show_all:`
    else if acodec ≠ "none" ∧ show_all = true then
      let abr_str :=
        match f.abr with
        | some n => s!"{n}"
        | none => "unknown"
      let extU := ext.toUpper
      some (FormatKey.audioOnly f.abr,
        { format_id := f.format_id
          resolution := s!"🎵 Audio Only - {abr_str}kbps ({extU})"
          has_video := vcodec ≠ "none"
          has_audio := acodec ≠ "none"
          height := f.height.getD 0
          ext := ext
          filesize := filesize
          merge_needed := false
          best_audio_id := none
          priority := 3
          fps := f.fps.getD 0 })
    else none

/-- The classification loop of `get_video_formats`: walks the sorted
descriptors keeping the `seen_formats` set of keys, appending each freshly
keyed entry. -/
def buildEntries (best_audio : Option RawFmt) (show_all : Bool)
    (seen : List FormatKey) : List RawFmt → List (FormatKey × MenuEntry)
  | [] => []
  | f :: rest =>
    match classify best_audio show_all f with
    | none => buildEntries best_audio show_all seen rest
    | some (k, e) =>
      if k ∈ seen then buildEntries best_audio show_all seen rest
      else (k, e) :: buildEntries best_audio show_all (k :: seen) rest

/-- Ordering of the final menu sort:
`formats.sort(key=lambda x: (x['priority'], -x['height'], -x['fps']))`. -/
def menuLe (a b : MenuEntry) : Bool :=
  a.priority < b.priority ∨
    (a.priority = b.priority ∧
      (b.height < a.height ∨ (b.height = a.height ∧ b.fps ≤ a.fps)))

/-- `menuLe` as a relation, for `List.insertionSort`. -/
def menuRel (a b : MenuEntry) : Prop := menuLe a b = true

instance : DecidableRel menuRel := fun a b => by unfold menuRel; infer_instance

/-- The pure core of `get_video_formats(url, show_all)`, starting from the
raw descriptor list `result['formats']`: best-audio selection, quality sort,
classification/deduplication loop, and the final menu sort. -/
def get_video_formats (l : List RawFmt) (show_all : Bool) : List MenuEntry :=
  let best_audio := bestAudioOf l
  let entries := buildEntries best_audio show_all [] (sortedFormatsOf l)
  (entries.map Prod.snd).insertionSort menuRel

/-! ### Filename sanitizer -/

/-- The character class removed by
`re.sub(r'[<>:"/\\|?*\x00-\x1f]', '', title)`. -/
def isIllegalChar (c : Char) : Bool :=
  c.toNat ≤ 31 ∨ c = '<' ∨ c = '>' ∨ c = ':' ∨ c = '"' ∨ c = '/' ∨
    c = '\\' ∨ c = '|' ∨ c = '?' ∨ c = '*'

/-- Python's whitespace class, matched by `\s` in `re.sub(r'\s+', ' ', ·)`
and stripped by `str.strip()`. -/
def isPySpace (c : Char) : Bool :=
  let n := c.toNat
  (9 ≤ n ∧ n ≤ 13) ∨ (28 ≤ n ∧ n ≤ 32) ∨ n = 133 ∨ n = 160 ∨ n = 5760 ∨
    (8192 ≤ n ∧ n ≤ 8202) ∨ n = 8232 ∨ n = 8233 ∨ n = 8239 ∨ n = 8287 ∨
    n = 12288

/-- `re.sub(r'\s+', ' ', s)`: every maximal run of whitespace becomes a
single space character. -/
def collapseWs : List Char → List Char
  | [] => []
  | [c] => if isPySpace c then [' '] else [c]
  | c :: d :: rest =>
    if isPySpace c then
      if isPySpace d then collapseWs (d :: rest)
      else ' ' :: collapseWs (d :: rest)
    else c :: collapseWs (d :: rest)

/-- `str.strip()`: remove leading and trailing whitespace. -/
def pyStrip (l : List Char) : List Char :=
  ((l.dropWhile isPySpace).reverse.dropWhile isPySpace).reverse

/-- The invariant established by `re.sub(r'\s+', ' ', ·)`: no two adjacent
whitespace characters. -/
def NoWsRun (l : List Char) : Prop :=
  l.Chain' (fun a b => ¬(isPySpace a = true ∧ isPySpace b = true))

/-- `sanitize_filename` on the character list of the title. -/
def sanitizeList (title : List Char) : List Char :=
  if title = [] then "video".toList
  else
    let s1 := title.filter (fun c => isIllegalChar c = false)
    let s2 := pyStrip (collapseWs s1)
    let s3 := s2.take 200
    if s3 = [] then "video".toList else s3

/-- `sanitize_filename(title)` from the source. -/
def sanitize_filename (title : String) : String :=
  (sanitizeList title.toList).asString

/-! ### Download orchestration (`download_video`) -/

/-- One `yt_dlp.YoutubeDL(...).download([url])` invocation issued by
`download_video`: its `format` selector, its `outtmpl`, and whether the
options carry the `FFmpegVideoConvertor` post-processor. -/
structure DlCall where
  selector : String
  outtmpl : String
  postprocess : Bool
deriving Repr, DecidableEq

/-- The error events (`st.error` calls) `download_video` can emit before or
instead of a successful download. -/
inductive DlEvent where
  | dirCreateError
  | noWritePermissionError
  | infoError
  | downloadError
deriving Repr, DecidableEq

/-- The environment a `download_video` run observes: outcome of
`os.makedirs`, of the `os.access(..., W_OK)` check, of `get_video_info`
(the title when available), the destination path, and the outcomes of the
first and second `ydl.download` calls the run may issue. -/
structure DlEnv where
  mkdirOk : Bool
  writable : Bool
  info : Option String
  outputPath : String
  dl1Ok : Bool
  dl2Ok : Bool
deriving Repr, DecidableEq

/-- Shallow embedding of `download_video(url, format_info, output_path, ...,
merge_option)`.  Returns the boolean result together with the list of error
events emitted and the trace of download calls issued, in order.
`os.path.join` is modelled as joining with `"/"`. -/
def download_video (env : DlEnv) (format_info : MenuEntry)
    (merge_option : String) : Bool × List DlEvent × List DlCall :=
  if env.mkdirOk = false then (false, [DlEvent.dirCreateError], [])
  else if env.writable = false then (false, [DlEvent.noWritePermissionError], [])
  else
    match env.info with
    | none => (false, [DlEvent.infoError], [])
    | some title =>
      let safe_title := sanitize_filename title
      let format_id := format_info.format_id
      let merge_needed := format_info.merge_needed
      if merge_needed = true ∧ merge_option = "merge" then
        let c : DlCall :=
          { selector := format_id ++ "+bestaudio/best"
            outtmpl := env.outputPath ++ "/" ++ safe_title ++ "_merged.%(ext)s"
            postprocess := true }
        if env.dl1Ok then (true, [], [c]) else (false, [DlEvent.downloadError], [c])
      else if merge_needed = true ∧ merge_option = "separate" then
        let vc : DlCall :=
          { selector := format_id
            outtmpl := env.outputPath ++ "/" ++ safe_title ++ "_video.%(ext)s"
            postprocess := false }
        let ac : DlCall :=
          { selector := "bestaudio"
            outtmpl := env.outputPath ++ "/" ++ safe_title ++ "_audio.%(ext)s"
            postprocess := false }
        if env.dl1Ok = false then (false, [DlEvent.downloadError], [vc])
        else if env.dl2Ok = false then (false, [DlEvent.downloadError], [vc, ac])
        else (true, [], [vc, ac])
      else
        let c : DlCall :=
          { selector := format_id
            outtmpl := env.outputPath ++ "/" ++ safe_title ++ ".%(ext)s"
            postprocess := false }
        if env.dl1Ok then (true, [], [c]) else (false, [DlEvent.downloadError], [c])

/-! ### Concrete inputs used by the scenario theorems -/

/-- Scenario A descriptor `{id:"18", vcodec:"h264", acodec:"aac", height:360}`. -/
def descr18 : RawFmt :=
  { format_id := "18", vcodec := some "h264", acodec := some "aac",
    height := some 360 }

/-- Scenario A descriptor `{id:"137", vcodec:"h264", acodec:"none", height:1080}`. -/
def descr137 : RawFmt :=
  { format_id := "137", vcodec := some "h264", acodec := some "none",
    height := some 1080 }

/-- Scenario A descriptor `{id:"140", vcodec:"none", acodec:"aac", abr:128}`. -/
def descr140 : RawFmt :=
  { format_id := "140", vcodec := some "none", acodec := some "aac",
    abr := some 128 }

/-- The Scenario A input descriptor list. -/
def scenarioA : List RawFmt := [descr18, descr137, descr140]

/-- A fully playable descriptor (both codecs present) whose height is
unknown. -/
def descrNoHeight : RawFmt :=
  { format_id := "22", vcodec := some "h264", acodec := some "aac",
    abr := some 100 }

/-- A title whose sanitized form is truncated at 200 characters right after
a space: 199 `a`s, a space, then a `b`. -/
def longTitle : String := ((List.replicate 199 'a') ++ [' ', 'b']).asString

/-- An environment in which every external step of `download_video`
succeeds. -/
def envAllOk : DlEnv :=
  { mkdirOk := true, writable := true, info := some "My Video",
    outputPath := "dl", dl1Ok := true, dl2Ok := true }

/-- The menu entry `get_video_formats` produces for `descr18` in Scenario
A: complete, rank class 1. -/
def entry18 : MenuEntry :=
  { format_id := "18", resolution := "360p ✅ Complete",
    has_video := true, has_audio := true, height := 360, ext := "mp4",
    filesize := 0, merge_needed := false, best_audio_id := none,
    priority := 1, fps := 0 }

/-- The menu entry `get_video_formats` produces for `descr137` in Scenario
A: merge-needed, paired with audio format `"140"`. -/
def entry137 : MenuEntry :=
  { format_id := "137", resolution := "1080p 🔄 Auto-merge + 128kbps audio",
    has_video := true, has_audio := false, height := 1080, ext := "mp4",
    filesize := 0, merge_needed := true, best_audio_id := some "140",
    priority := 2, fps := 0 }

/-- Case analysis of a successful classification: the three branches of the
loop body and the fields each one sets. -/
theorem classify_cases (ba : Option RawFmt) (s : Bool) (f : RawFmt)
    (k : FormatKey) (e : MenuEntry) (h : classify ba s f = some (k, e)) :
    (e.priority = 1 ∧ e.merge_needed = false ∧ e.best_audio_id = none ∧
      k = FormatKey.complete e.height e.fps ∧ e.has_video = true ∧
      e.has_audio = true ∧ e.height ≠ 0) ∨
    (e.priority = 2 ∧ e.merge_needed = true ∧
      e.best_audio_id = ba.map (fun g => g.format_id) ∧
      k = FormatKey.videoMerge e.height e.fps ∧ e.has_video = true ∧
      e.has_audio = false ∧ e.height ≠ 0) ∨
    (e.priority = 3 ∧ e.merge_needed = false ∧ e.best_audio_id = none ∧
      k = FormatKey.audioOnly f.abr ∧ e.has_audio = true ∧
      (e.has_video = true → e.height = 0)) := by
  by_cases hid : f.format_id = ""
  · simp [classify, hid] at h
  · by_cases hskip : f.vcodec.getD "none" = "none" ∧ s = false
    · simp [classify, hid, hskip] at h
    · by_cases hvid : f.vcodec.getD "none" ≠ "none" ∧ f.height.getD 0 ≠ 0
      · by_cases hac : f.acodec.getD "none" ≠ "none"
        · left
          simp [classify, hid, hskip, hvid, hac] at h
          obtain ⟨hk, he⟩ := h
          subst hk he
          simp [hvid.1, hvid.2, hac]
        · right; left
          simp [classify, hid, hskip, hvid, hac] at h
          obtain ⟨hk, he⟩ := h
          subst hk he
          simp at hac
          simp [hvid.1, hvid.2, hac]
      · by_cases haud : f.acodec.getD "none" ≠ "none" ∧ s = true
        · right; right
          simp [classify, hid, hskip, hvid, haud] at h
          obtain ⟨hk, he⟩ := h
          subst hk he
          simp [haud.1]
          intro hb
          -- has_video = true means vcodec ≠ "none", so the height guard failed
          rcases Decidable.not_and_iff_or_not.mp hvid with hv | hh
          · exact absurd hb (by simpa using hv)
          · simpa using hh
        · simp [classify, hid, hskip, hvid, haud] at h

/-- Every pair emitted by the classification loop is the classification of
some descriptor of the processed list. -/
theorem buildEntries_sub (ba : Option RawFmt) (s : Bool) :
    ∀ (fmts : List RawFmt) (seen : List FormatKey)
      (p : FormatKey × MenuEntry), p ∈ buildEntries ba s seen fmts →
      ∃ f ∈ fmts, classify ba s f = some p := by
  intro fmts
  induction fmts with
  | nil => intro seen p hp; simp [buildEntries] at hp
  | cons f rest ih =>
    intro seen p hp
    unfold buildEntries at hp
    rcases hc : classify ba s f with _ | q
    · rw [hc] at hp
      obtain ⟨g, hg, hgp⟩ := ih seen p hp
      exact ⟨g, List.mem_cons_of_mem _ hg, hgp⟩
    · rw [hc] at hp
      obtain ⟨k, e⟩ := q
      by_cases hin : k ∈ seen
      · simp only [if_pos hin] at hp
        obtain ⟨g, hg, hgp⟩ := ih seen p hp
        exact ⟨g, List.mem_cons_of_mem _ hg, hgp⟩
      · simp only [if_neg hin] at hp
        rcases List.mem_cons.mp hp with hph | hpt
        · exact ⟨f, List.mem_cons_self f rest, by rw [hc, hph]⟩
        · obtain ⟨g, hg, hgp⟩ := ih _ p hpt
          exact ⟨g, List.mem_cons_of_mem _ hg, hgp⟩

/-- The keys of the pairs emitted by the classification loop avoid the
`seen` set and are pairwise distinct: the deduplication invariant. -/
theorem buildEntries_keys (ba : Option RawFmt) (s : Bool) :
    ∀ (fmts : List RawFmt) (seen : List FormatKey),
      (∀ p ∈ buildEntries ba s seen fmts, p.1 ∉ seen) ∧
      (buildEntries ba s seen fmts).Pairwise (fun p q => p.1 ≠ q.1) := by
  intro fmts
  induction fmts with
  | nil => intro seen; simp [buildEntries]
  | cons f rest ih =>
    intro seen
    unfold buildEntries
    rcases hc : classify ba s f with _ | q
    · exact ih seen
    · obtain ⟨k, e⟩ := q
      by_cases hin : k ∈ seen
      · simpa only [if_pos hin] using ih seen
      · simp only [if_neg hin]
        obtain ⟨ihm, ihp⟩ := ih (k :: seen)
        constructor
        · intro p hp
          rcases List.mem_cons.mp hp with hph | hpt
          · rw [hph]; exact hin
          · intro hmem
            exact ihm p hpt (List.mem_cons_of_mem _ hmem)
        · refine List.pairwise_cons.mpr ⟨?_, ?_⟩
          · intro q hq
            have := ihm q hq
            intro hkq
            exact this (hkq ▸ List.mem_cons_self k seen)
          · exact ihp.imp (fun h => h) |>.imp fun h => h

/-- Every entry of the produced menu is the classification of some input
descriptor (with the input's best audio). -/
theorem menu_entry_source (l : List RawFmt) (s : Bool) (e : MenuEntry)
    (he : e ∈ get_video_formats l s) :
    ∃ f ∈ l, ∃ k, classify (bestAudioOf l) s f = some (k, e) := by
  unfold get_video_formats at he
  have hperm := List.perm_insertionSort menuRel
    ((buildEntries (bestAudioOf l) s [] (sortedFormatsOf l)).map Prod.snd)
  have hmem := hperm.mem_iff.mp he
  obtain ⟨p, hp, hpe⟩ := List.mem_map.mp hmem
  obtain ⟨f, hf, hfp⟩ := buildEntries_sub _ _ _ _ p hp
  have hfl : f ∈ l := by
    have hperm2 := List.perm_insertionSort qualRel l
    exact hperm2.mem_iff.mp (by simpa [sortedFormatsOf] using hf)
  exact ⟨f, hfl, p.1, by rw [hfp, ← hpe]⟩

/-- Python's `max` returns an element of the scanned list. -/
theorem pyMaxAbr_mem (cur : RawFmt) (l : List RawFmt) :
    pyMaxAbr cur l ∈ cur :: l := by
  induction l generalizing cur with
  | nil => simp [pyMaxAbr]
  | cons f rest ih =>
    unfold pyMaxAbr
    by_cases hlt : abrKey cur < abrKey f
    · rw [if_pos hlt]
      rcases List.mem_cons.mp (ih f) with hm | hm
      · rw [hm]; exact List.mem_cons_of_mem _ (List.mem_cons_self _ _)
      · exact List.mem_cons_of_mem _ (List.mem_cons_of_mem _ hm)
    · rw [if_neg hlt]
      rcases List.mem_cons.mp (ih cur) with hm | hm
      · rw [hm]; exact List.mem_cons_self _ _
      · exact List.mem_cons_of_mem _ (List.mem_cons_of_mem _ hm)

/-- Python's `max` attains the maximal key. -/
theorem pyMaxAbr_ge (cur : RawFmt) (l : List RawFmt) :
    ∀ g ∈ cur :: l, abrKey g ≤ abrKey (pyMaxAbr cur l) := by
  induction l generalizing cur with
  | nil => intro g hg; rcases List.mem_cons.mp hg with h | h
           · rw [h]; simp [pyMaxAbr]
           · simp at h
  | cons f rest ih =>
    intro g hg
    unfold pyMaxAbr
    have hcur : abrKey cur ≤ abrKey (if abrKey cur < abrKey f then f else cur) := by
      by_cases hlt : abrKey cur < abrKey f
      · rw [if_pos hlt]; omega
      · rw [if_neg hlt]
    have hf : abrKey f ≤ abrKey (if abrKey cur < abrKey f then f else cur) := by
      by_cases hlt : abrKey cur < abrKey f
      · rw [if_pos hlt]
      · rw [if_neg hlt]; omega
    rcases List.mem_cons.mp hg with h | h
    · rw [h]
      exact le_trans hcur (ih _ _ (List.mem_cons_self _ _))
    · rcases List.mem_cons.mp h with h2 | h2
      · rw [h2]
        exact le_trans hf (ih _ _ (List.mem_cons_self _ _))
      · exact ih _ g (List.mem_cons_of_mem _ h2)

/-- Python's `max` breaks ties in favour of the first-encountered element:
it is the first element of the scanned list attaining the maximal key. -/
theorem pyMaxAbr_first (cur : RawFmt) (l : List RawFmt) :
    (cur :: l).find?
      (fun g => decide (abrKey (pyMaxAbr cur l) ≤ abrKey g)) =
      some (pyMaxAbr cur l) := by
  induction l generalizing cur with
  | nil =>
    simp [pyMaxAbr, List.find?]
  | cons f rest ih =>
    have hrec : pyMaxAbr cur (f :: rest) =
        pyMaxAbr (if abrKey cur < abrKey f then f else cur) rest := rfl
    by_cases hlt : abrKey cur < abrKey f
    · rw [hrec, if_pos hlt]
      have hmax := pyMaxAbr_ge f rest
      have hfm : abrKey f ≤ abrKey (pyMaxAbr f rest) :=
        hmax f (List.mem_cons_self _ _)
      have hcurlt : abrKey cur < abrKey (pyMaxAbr f rest) := lt_of_lt_of_le hlt hfm
      rw [List.find?_cons]
      have : (decide (abrKey (pyMaxAbr f rest) ≤ abrKey cur)) = false := by
        simp; omega
      rw [this]
      exact ih f
    · rw [hrec, if_neg hlt]
      have hmax := pyMaxAbr_ge cur rest
      have hcm : abrKey cur ≤ abrKey (pyMaxAbr cur rest) :=
        hmax cur (List.mem_cons_self _ _)
      have ihc := ih cur
      rw [List.find?_cons] at ihc ⊢
      by_cases hc : abrKey (pyMaxAbr cur rest) ≤ abrKey cur
      · rw [show (decide (abrKey (pyMaxAbr cur rest) ≤ abrKey cur)) = true by simpa using hc] at ihc ⊢
        exact ihc
      · rw [show (decide (abrKey (pyMaxAbr cur rest) ≤ abrKey cur)) = false by simpa using hc] at ihc ⊢
        rw [List.find?_cons]
        have hflt : abrKey f ≤ abrKey cur := by omega
        have : (decide (abrKey (pyMaxAbr cur rest) ≤ abrKey f)) = false := by
          simp; omega
        rw [this]
        exact ihc

instance : IsTotal MenuEntry menuRel :=
  ⟨fun a b => by unfold menuRel menuLe; simp; omega⟩

instance : IsTrans MenuEntry menuRel :=
  ⟨fun a b c => by unfold menuRel menuLe; simp; omega⟩

/-- C5: for every input list with at least one audio-only descriptor, every
merge-needed menu entry is paired with the first-encountered maximal-`abr`
audio-only descriptor, so all merge-needed entries share that one id. -/
theorem merge_pairing (l : List RawFmt) (s : Bool)
    (hne : audioFormatsOf l ≠ []) :
    ∃ b : RawFmt, b ∈ audioFormatsOf l ∧
      (∀ g ∈ audioFormatsOf l, abrKey g ≤ abrKey b) ∧
      (audioFormatsOf l).find? (fun g => decide (abrKey b ≤ abrKey g)) = some b ∧
      ∀ e ∈ get_video_formats l s, e.merge_needed = true →
        e.best_audio_id = some b.format_id := by
  rcases haf : audioFormatsOf l with _ | ⟨g, gs⟩
  · exact absurd haf hne
  · refine ⟨pyMaxAbr g gs, ?_, ?_, ?_, ?_⟩
    · exact pyMaxAbr_mem g gs
    · exact pyMaxAbr_ge g gs
    · exact pyMaxAbr_first g gs
    · intro e he hm
      obtain ⟨f, _, k, hc⟩ := menu_entry_source l s e he
      rcases classify_cases _ _ _ _ _ hc with h1 | h2 | h3
      · rw [h1.2.1] at hm; exact absurd hm (by simp)
      · have hba : bestAudioOf l = some (pyMaxAbr g gs) := by
          unfold bestAudioOf; rw [haf]
        rw [h2.2.2.1, hba]
        rfl
      · rw [h3.2.1] at hm; exact absurd hm (by simp)

/-- C6: the produced menu is sorted by
`(priority asc, height desc, fps desc)`; the deduplication keys of its
entries are pairwise distinct; and in particular no two video entries of the
same rank class share the same `(height, fps)` identity. -/
theorem menu_sorted_dedup (l : List RawFmt) (s : Bool) :
    (get_video_formats l s).Pairwise menuRel ∧
    (get_video_formats l s).Perm
      ((buildEntries (bestAudioOf l) s [] (sortedFormatsOf l)).map Prod.snd) ∧
    ((buildEntries (bestAudioOf l) s [] (sortedFormatsOf l)).map Prod.fst).Nodup ∧
    (get_video_formats l s).Pairwise (fun a b =>
      a.priority = b.priority → a.priority ≠ 3 →
        ¬(a.height = b.height ∧ a.fps = b.fps)) := by
  refine ⟨List.sorted_insertionSort menuRel _,
    List.perm_insertionSort menuRel _, ?_, ?_⟩
  · have hkeys := (buildEntries_keys (bestAudioOf l) s (sortedFormatsOf l) []).2
    exact List.pairwise_map.mpr hkeys
  · have hkeys := (buildEntries_keys (bestAudioOf l) s (sortedFormatsOf l) []).2
    have hup : (buildEntries (bestAudioOf l) s [] (sortedFormatsOf l)).Pairwise
        (fun p q => p.2.priority = q.2.priority → p.2.priority ≠ 3 →
          ¬(p.2.height = q.2.height ∧ p.2.fps = q.2.fps)) := by
      refine hkeys.imp_of_mem ?_
      intro p q hp hq hne
      obtain ⟨fp, _, hcp⟩ := buildEntries_sub _ _ _ _ p hp
      obtain ⟨fq, _, hcq⟩ := buildEntries_sub _ _ _ _ q hq
      intro hpr h3 hkey
      obtain ⟨hh, hf⟩ := hkey
      rcases classify_cases _ _ _ _ _ (show classify (bestAudioOf l) s fp =
          some (p.1, p.2) from hcp) with h1 | h2 | hh3
      · rcases classify_cases _ _ _ _ _ (show classify (bestAudioOf l) s fq =
            some (q.1, q.2) from hcq) with g1 | g2 | g3
        · exact hne (by rw [h1.2.2.2.1, g1.2.2.2.1, hh, hf])
        · rw [h1.1, g2.1] at hpr; omega
        · rw [h1.1, g3.1] at hpr; omega
      · rcases classify_cases _ _ _ _ _ (show classify (bestAudioOf l) s fq =
            some (q.1, q.2) from hcq) with g1 | g2 | g3
        · rw [h2.1, g1.1] at hpr; omega
        · exact hne (by rw [h2.2.2.2.1, g2.2.2.2.1, hh, hf])
        · rw [h2.1, g3.1] at hpr; omega
      · rw [hh3.1] at h3; omega
    have hmap : ((buildEntries (bestAudioOf l) s [] (sortedFormatsOf l)).map
        Prod.snd).Pairwise (fun a b =>
          a.priority = b.priority → a.priority ≠ 3 →
            ¬(a.height = b.height ∧ a.fps = b.fps)) :=
      List.pairwise_map.mpr hup
    have hperm := List.perm_insertionSort menuRel
      ((buildEntries (bestAudioOf l) s [] (sortedFormatsOf l)).map Prod.snd)
    refine hperm.symm.pairwise hmap ?_
    intro x y hxy hpr h3 hkey
    exact hxy hpr.symm (hpr ▸ h3) ⟨hkey.1.symm, hkey.2.symm⟩

/-- C3 (amended): a menu entry with both video and audio and a known
nonzero height always has rank class 1. -/
theorem complete_dominance (l : List RawFmt) (s : Bool) (e : MenuEntry)
    (he : e ∈ get_video_formats l s) (hv : e.has_video = true)
    (ha : e.has_audio = true) (hh : e.height ≠ 0) : e.priority = 1 := by
  obtain ⟨f, _, k, hc⟩ := menu_entry_source l s e he
  rcases classify_cases _ _ _ _ _ hc with h1 | h2 | h3
  · exact h1.1
  · rw [h2.2.2.2.2.2.1] at ha; exact absurd ha (by simp)
  · exact absurd (h3.2.2.2.2.2 hv) hh

/-- C3 (counterexample): a descriptor with both codecs non-`"none"` but no
height appears in the menu with rank class 3, not 1, when audio-only
formats are included. -/
theorem complete_dominance_cex :
    descrNoHeight.vcodec = some "h264" ∧ descrNoHeight.acodec = some "aac" ∧
    (get_video_formats [descrNoHeight] true).map
      (fun e => (e.has_video, e.has_audio, e.priority)) = [(true, true, 3)] := by
  decide

/-- C3 (witness for the amended theorem): in Scenario A the complete
360p entry indeed carries rank class 1. -/
theorem complete_dominance_witness :
    ∃ e ∈ get_video_formats scenarioA false,
      e.has_video = true ∧ e.has_audio = true ∧ e.height ≠ 0 ∧
        e.priority = 1 := by
  have hmem : entry18 ∈ get_video_formats scenarioA false := by decide
  refine ⟨_, hmem, rfl, rfl, by decide, ?_⟩
  exact complete_dominance scenarioA false _ hmem rfl rfl (by decide)

/-- C1 (counterexample): on the Scenario A input with audio-only formats
excluded, the menu does NOT list the id-"137" entry first: the id order is
`["18", "137"]`, not `["137", "18"]`. -/
theorem scenarioA_order_cex :
    (get_video_formats scenarioA false).map (fun e => e.format_id) =
      ["18", "137"] ∧ (["18", "137"] : List String) ≠ ["137", "18"] := by
  decide

/-- C1 (amended): on the Scenario A input with audio-only formats excluded,
the menu has exactly two entries, first the complete id-"18" entry with rank
class 1, then the merge-needed id-"137" entry with rank class 2 paired with
audio format "140". -/
theorem scenarioA_menu :
    get_video_formats scenarioA false = [entry18, entry137] := by
  decide

/-- C10: a descriptor with a video codec but unknown height never yields a
video menu entry: it is skipped entirely when audio-only formats are
excluded, and with `show_all` it is classified audio-only (rank class 3)
exactly when it has an audio codec; moreover every menu entry arises from
`classify`, so no other classification can smuggle it in. -/
theorem video_without_height (f : RawFmt)
    (hv : f.vcodec.getD "none" ≠ "none") (hh : f.height = none) :
    ∀ ba : Option RawFmt,
      (classify ba false f = none) ∧
      (f.format_id ≠ "" → f.acodec.getD "none" ≠ "none" →
        (classify ba true f).map
            (fun p => (p.1, p.2.priority, p.2.merge_needed, p.2.has_audio)) =
          some (FormatKey.audioOnly f.abr, 3, false, true)) ∧
      (f.acodec.getD "none" = "none" → classify ba true f = none) ∧
      (∀ (l : List RawFmt) (s : Bool) (e : MenuEntry),
        e ∈ get_video_formats l s →
          ∃ g ∈ l, ∃ k, classify (bestAudioOf l) s g = some (k, e)) := by
  intro ba
  have h0 : f.height.getD 0 = 0 := by rw [hh]; rfl
  refine ⟨?_, ?_, ?_, menu_entry_source⟩
  · by_cases hid : f.format_id = ""
    · simp [classify, hid]
    · simp [classify, hid, h0, hv]
  · intro hid hac
    simp [classify, hid, h0, hv, hac]
  · intro hac
    by_cases hid : f.format_id = ""
    · simp [classify, hid]
    · simp [classify, hid, h0, hv, hac]

/-- A whitespace-collapsed list headed by a non-space character keeps that
head. -/
theorem collapseWs_head_of_nonspace (d : Char) (rest : List Char)
    (hd : isPySpace d = false) :
    (collapseWs (d :: rest)).head? = some d := by
  cases rest with
  | nil => simp [collapseWs, hd]
  | cons e rest' => simp [collapseWs, hd]

/-- Collapsing whitespace leaves no two adjacent whitespace characters. -/
theorem noWsRun_collapseWs (l : List Char) : NoWsRun (collapseWs l) := by
  induction l using collapseWs.induct with
  | case1 => simp [collapseWs, NoWsRun]
  | case2 c hc => unfold collapseWs NoWsRun; rw [if_pos hc]; simp
  | case3 c hc => unfold collapseWs NoWsRun; rw [if_neg hc]; simp
  | case4 c d rest hc hd ih =>
    unfold collapseWs
    rw [if_pos hc, if_pos hd]
    exact ih
  | case5 c d rest hc hd ih =>
    unfold collapseWs
    rw [if_pos hc, if_neg hd]
    refine List.chain'_cons'.mpr ⟨?_, ih⟩
    intro y hy
    rw [collapseWs_head_of_nonspace d rest (by simpa using hd)] at hy
    simp at hy
    rw [← hy]
    intro hcon
    exact hd hcon.2
  | case6 c d rest hc ih =>
    unfold collapseWs
    rw [if_neg hc]
    refine List.chain'_cons'.mpr ⟨?_, ih⟩
    intro y _ hcon
    exact hc hcon.1

/-- Every whitespace character surviving the collapse is a plain space. -/
theorem space_of_mem_collapseWs (l : List Char) :
    ∀ c ∈ collapseWs l, isPySpace c = true → c = ' ' := by
  induction l using collapseWs.induct with
  | case1 => simp [collapseWs]
  | case2 c hc =>
    unfold collapseWs
    rw [if_pos hc]
    simp
  | case3 c hc =>
    unfold collapseWs
    rw [if_neg hc]
    intro x hx hsp
    simp at hx
    rw [hx] at hsp
    exact absurd hsp hc
  | case4 c d rest hc hd ih =>
    unfold collapseWs
    rw [if_pos hc, if_pos hd]
    exact ih
  | case5 c d rest hc hd ih =>
    unfold collapseWs
    rw [if_pos hc, if_neg hd]
    intro x hx hsp
    rcases List.mem_cons.mp hx with h | h
    · exact h
    · exact ih x h hsp
  | case6 c d rest hc ih =>
    unfold collapseWs
    rw [if_neg hc]
    intro x hx hsp
    rcases List.mem_cons.mp hx with h | h
    · rw [h] at hsp; exact absurd hsp hc
    · exact ih x h hsp

/-- Every character of the collapsed list is a space or came from the
input. -/
theorem mem_collapseWs (l : List Char) :
    ∀ c ∈ collapseWs l, c = ' ' ∨ c ∈ l := by
  induction l using collapseWs.induct with
  | case1 => simp [collapseWs]
  | case2 c hc =>
    unfold collapseWs
    rw [if_pos hc]
    simp
  | case3 c hc =>
    unfold collapseWs
    rw [if_neg hc]
    simp
  | case4 c d rest hc hd ih =>
    unfold collapseWs
    rw [if_pos hc, if_pos hd]
    intro x hx
    rcases ih x hx with h | h
    · exact Or.inl h
    · exact Or.inr (List.mem_cons_of_mem _ h)
  | case5 c d rest hc hd ih =>
    unfold collapseWs
    rw [if_pos hc, if_neg hd]
    intro x hx
    rcases List.mem_cons.mp hx with h | h
    · exact Or.inl h
    · rcases ih x h with h2 | h2
      · exact Or.inl h2
      · exact Or.inr (List.mem_cons_of_mem _ h2)
  | case6 c d rest hc ih =>
    unfold collapseWs
    rw [if_neg hc]
    intro x hx
    rcases List.mem_cons.mp hx with h | h
    · exact Or.inr (h ▸ List.mem_cons_self _ _)
    · rcases ih x h with h2 | h2
      · exact Or.inl h2
      · exact Or.inr (List.mem_cons_of_mem _ h2)

/-- Collapsing is the identity on a list with no whitespace runs whose
whitespace is already plain spaces. -/
theorem collapseWs_eq_self (l : List Char) (hruns : NoWsRun l)
    (hsp : ∀ c ∈ l, isPySpace c = true → c = ' ') : collapseWs l = l := by
  induction l using collapseWs.induct with
  | case1 => rfl
  | case2 c hc =>
    unfold collapseWs
    rw [if_pos hc, hsp c (List.mem_singleton_self c) hc]
  | case3 c hc =>
    unfold collapseWs
    rw [if_neg hc]
  | case4 c d rest hc hd ih =>
    exfalso
    have := List.chain'_cons.mp hruns
    exact this.1 ⟨hc, hd⟩
  | case5 c d rest hc hd ih =>
    unfold collapseWs
    rw [if_pos hc, if_neg hd]
    have hctail : NoWsRun (d :: rest) := (List.chain'_cons.mp hruns).2
    have hc2 : c = ' ' := hsp c (List.mem_cons_self _ _) hc
    rw [ih hctail (fun x hx => hsp x (List.mem_cons_of_mem _ hx)), hc2]
  | case6 c d rest hc ih =>
    unfold collapseWs
    rw [if_neg hc]
    have hctail : NoWsRun (d :: rest) := (List.chain'_cons.mp hruns).2
    rw [ih hctail (fun x hx => hsp x (List.mem_cons_of_mem _ hx))]

/-- Stripping only removes characters. -/
theorem mem_pyStrip (l : List Char) : ∀ c ∈ pyStrip l, c ∈ l := by
  intro c hc
  unfold pyStrip at hc
  have h1 := (List.dropWhile_suffix isPySpace).sublist.mem
    (List.mem_reverse.mp hc)
  exact (List.dropWhile_suffix isPySpace).sublist.mem (List.mem_reverse.mp h1)

/-- Stripping preserves the no-whitespace-run invariant. -/
theorem noWsRun_pyStrip (l : List Char) (h : NoWsRun l) : NoWsRun (pyStrip l) := by
  unfold pyStrip NoWsRun
  have hsymm : ∀ {R : Char → Char → Prop},
      (∀ a b, R a b → R b a) → ∀ {m : List Char},
        m.Chain' R → m.reverse.Chain' R := by
    intro R hR m hm
    rw [List.chain'_reverse]
    exact hm.imp fun a b hab => hR a b hab
  have hR : ∀ a b : Char, (¬(isPySpace a = true ∧ isPySpace b = true)) →
      ¬(isPySpace b = true ∧ isPySpace a = true) := by
    intro a b hab hcon
    exact hab ⟨hcon.2, hcon.1⟩
  have h1 : (l.dropWhile isPySpace).Chain'
      (fun a b => ¬(isPySpace a = true ∧ isPySpace b = true)) :=
    h.suffix (List.dropWhile_suffix isPySpace)
  have h2 := hsymm hR h1
  have h3 := h2.suffix (List.dropWhile_suffix isPySpace)
  exact hsymm hR h3

/-- `dropWhile` is the identity when the head fails the predicate. -/
theorem dropWhile_eq_self_of_head (p : Char → Bool) (l : List Char)
    (h : ∀ c, l.head? = some c → p c = false) : l.dropWhile p = l := by
  cases l with
  | nil => rfl
  | cons c rest =>
    rw [List.dropWhile_cons, if_neg]
    rw [h c rfl]
    simp

/-- The head of a stripped list is not whitespace. -/
theorem pyStrip_head (l : List Char) (c : Char)
    (h : (pyStrip l).head? = some c) : isPySpace c = false := by
  unfold pyStrip at h
  rw [List.head?_reverse] at h
  -- the last of `dropWhile sp (a.reverse)` is the last of `a.reverse`,
  -- i.e. the head of `a := dropWhile sp l`
  set a := l.dropWhile isPySpace with ha
  set b := a.reverse.dropWhile isPySpace with hb
  have hbne : b ≠ [] := by
    intro hbnil
    rw [hbnil] at h
    simp at h
  have hlast : b.getLast? = a.reverse.getLast? := by
    obtain ⟨t, hta⟩ := List.dropWhile_suffix (l := a.reverse) isPySpace
    rw [← hta, List.getLast?_append]
    rw [List.getLast?_eq_getLast _ hbne]
    simp
  rw [hlast, List.getLast?_reverse] at h
  have := List.head?_dropWhile_not isPySpace l
  rw [← ha] at this
  rw [h] at this
  exact this

/-- The last character of a stripped list is not whitespace. -/
theorem pyStrip_last (l : List Char) (c : Char)
    (h : (pyStrip l).getLast? = some c) : isPySpace c = false := by
  unfold pyStrip at h
  rw [List.getLast?_reverse] at h
  have := List.head?_dropWhile_not isPySpace (l.dropWhile isPySpace).reverse
  rw [h] at this
  exact this

/-- Stripping a stripped list changes nothing. -/
theorem pyStrip_pyStrip (l : List Char) : pyStrip (pyStrip l) = pyStrip l := by
  have h1 : (pyStrip l).dropWhile isPySpace = pyStrip l := by
    apply dropWhile_eq_self_of_head
    intro c hc
    exact pyStrip_head l c hc
  have h2 : (pyStrip l).reverse.dropWhile isPySpace = (pyStrip l).reverse := by
    apply dropWhile_eq_self_of_head
    intro c hc
    rw [List.head?_reverse] at hc
    exact pyStrip_last l c hc
  show ((((pyStrip l).dropWhile isPySpace).reverse).dropWhile isPySpace).reverse = pyStrip l
  rw [h1, h2, List.reverse_reverse]

/-- No character of the collapsed-and-stripped filtered title is illegal. -/
theorem sanitize_core_legal (l : List Char) :
    ∀ c ∈ pyStrip (collapseWs (l.filter (fun c => isIllegalChar c = false))),
      isIllegalChar c = false := by
  intro c hc
  have h1 := mem_pyStrip _ c hc
  rcases mem_collapseWs _ c h1 with h | h
  · rw [h]; decide
  · simpa using (List.mem_filter.mp h).2

/-- The core list transformation of `sanitize_filename` is the identity on
its own output. -/
theorem sanitize_core_fixed (l : List Char) (t : List Char)
    (ht : t = pyStrip (collapseWs (l.filter (fun c => isIllegalChar c = false)))) :
    t.filter (fun c => isIllegalChar c = false) = t ∧
    collapseWs t = t ∧ pyStrip t = t := by
  refine ⟨?_, ?_, ?_⟩
  · apply List.filter_eq_self.mpr
    intro c hc
    rw [ht] at hc
    simpa using sanitize_core_legal l c hc
  · apply collapseWs_eq_self
    · rw [ht]
      exact noWsRun_pyStrip _ (noWsRun_collapseWs _)
    · intro c hc hsp
      rw [ht] at hc
      exact space_of_mem_collapseWs _ c (mem_pyStrip _ c hc) hsp
  · rw [ht]
    exact pyStrip_pyStrip _

/-- `sanitizeList` fixes any nonempty list of at most 200 characters that
its three cleaning passes already fix. -/
theorem sanitizeList_eq_self (t : List Char) (hne : t ≠ [])
    (hlen : t.length ≤ 200)
    (hf : t.filter (fun c => isIllegalChar c = false) = t)
    (hc : collapseWs t = t) (hp : pyStrip t = t) :
    sanitizeList t = t := by
  unfold sanitizeList
  rw [if_neg hne]
  dsimp only
  rw [hf, hc, hp, List.take_of_length_le hlen, if_neg hne]

/-- Idempotence of `sanitizeList` on titles whose sanitized form is shorter
than 200 characters. -/
theorem sanitizeList_idempotent (l : List Char)
    (hlen : (sanitizeList l).length < 200) :
    sanitizeList (sanitizeList l) = sanitizeList l := by
  have hvid : sanitizeList ("video".toList) = "video".toList := by decide
  by_cases hs : l = []
  · have h0 : sanitizeList l = "video".toList := by rw [hs]; rfl
    rw [h0, hvid]
  · have hon : sanitizeList l =
        (if (pyStrip (collapseWs (l.filter (fun c => isIllegalChar c = false)))).take 200 = []
          then "video".toList
          else (pyStrip (collapseWs (l.filter (fun c => isIllegalChar c = false)))).take 200) := by
      unfold sanitizeList
      rw [if_neg hs]
    set t := pyStrip (collapseWs (l.filter (fun c => isIllegalChar c = false))) with htdef
    by_cases htake : t.take 200 = []
    · rw [hon, if_pos htake, hvid]
    · rw [hon, if_neg htake]
      have hlt : t.length < 200 := by
        have h2 := hlen
        rw [hon, if_neg htake] at h2
        rw [List.length_take] at h2
        omega
      have hteq : t.take 200 = t := List.take_of_length_le (le_of_lt hlt)
      rw [hteq]
      obtain ⟨hf, hc, hp⟩ := sanitize_core_fixed l t htdef
      exact sanitizeList_eq_self t (by rw [← hteq]; exact htake)
        (le_of_lt hlt) hf hc hp

/-- C4 (amended): `sanitize_filename` is idempotent on every title whose
sanitized form is shorter than 200 characters — that is, whenever the
200-character truncation did not cut the collapsed title.  (Truncation can
leave a trailing space that a second application strips.) -/
theorem sanitize_idempotent_untruncated (s : String)
    (hlen : (sanitize_filename s).length < 200) :
    sanitize_filename (sanitize_filename s) = sanitize_filename s := by
  have hl : (sanitize_filename s).toList = sanitizeList s.toList := rfl
  have hlen2 : (sanitizeList s.toList).length < 200 := hlen
  unfold sanitize_filename
  have h3 : ((sanitizeList s.toList).asString).toList = sanitizeList s.toList := rfl
  rw [h3, sanitizeList_idempotent s.toList hlen2]

set_option maxRecDepth 4000 in
/-- C4 (counterexample): the sanitizer is not idempotent — truncating
`longTitle` (199 `a`s, a space, a `b`) at 200 characters leaves a trailing
space that a second application removes. -/
theorem sanitize_not_idempotent_cex :
    sanitize_filename (sanitize_filename longTitle) ≠ sanitize_filename longTitle := by
  decide

/-- C4 (witness for the amended theorem) at the concrete title `"My Video"`. -/
theorem sanitize_idempotent_witness :
    (sanitize_filename "My Video").length < 200 ∧
      sanitize_filename (sanitize_filename "My Video") = sanitize_filename "My Video" :=
  ⟨by decide, sanitize_idempotent_untruncated "My Video" (by decide)⟩

/-- C7: the sanitizer's output never contains an illegal character (the
nine reserved punctuation characters or a control character 0–31), never
exceeds 200 characters, the empty title maps to the fallback `"video"`,
and so does any title whose cleaned form reduces to the empty string (the
`sanitized or "video"` path).  The function is total by construction. -/
theorem sanitize_safe (s : String) :
    (∀ c ∈ (sanitize_filename s).toList, isIllegalChar c = false) ∧
    (sanitize_filename s).length ≤ 200 ∧
    sanitize_filename "" = "video" ∧
    (pyStrip (collapseWs (s.toList.filter (fun c => isIllegalChar c = false))) = [] →
      sanitize_filename s = "video") := by
  refine ⟨?_, ?_, by decide, ?_⟩
  · intro c hc
    have hcl : c ∈ sanitizeList s.toList := hc
    unfold sanitizeList at hcl
    by_cases hs : s.toList = []
    · rw [if_pos hs] at hcl
      simp at hcl
      rcases hcl with h | h | h | h | h <;> rw [h] <;> decide
    · rw [if_neg hs] at hcl
      dsimp only at hcl
      by_cases htake :
          (pyStrip (collapseWs (s.toList.filter (fun c => isIllegalChar c = false)))).take 200 = []
      · rw [if_pos htake] at hcl
        simp at hcl
        rcases hcl with h | h | h | h | h <;> rw [h] <;> decide
      · rw [if_neg htake] at hcl
        exact sanitize_core_legal s.toList c (List.mem_of_mem_take hcl)
  · have hlen : (sanitize_filename s).length = (sanitizeList s.toList).length := rfl
    rw [hlen]
    unfold sanitizeList
    by_cases hs : s.toList = []
    · rw [if_pos hs]; decide
    · rw [if_neg hs]
      dsimp only
      by_cases htake :
          (pyStrip (collapseWs (s.toList.filter (fun c => isIllegalChar c = false)))).take 200 = []
      · rw [if_pos htake]; decide
      · rw [if_neg htake]
        rw [List.length_take]
        omega
  · intro hred
    show (sanitizeList s.toList).asString = "video"
    unfold sanitizeList
    by_cases hs : s.toList = []
    · rw [if_pos hs]; decide
    · rw [if_neg hs]
      dsimp only
      rw [hred]
      simp only [List.take_nil, if_pos rfl]
      decide

/-- C7 (witness): the all-illegal title `"<>?"` reduces to the empty string
and maps to the fallback `"video"`, within the 200-character bound; the
all-whitespace-and-illegal path of line 211 is thereby exercised. -/
theorem sanitize_safe_witness :
    pyStrip (collapseWs (("<>?" : String).toList.filter
        (fun c => isIllegalChar c = false))) = [] ∧
      sanitize_filename "<>?" = "video" ∧
      (sanitize_filename "<>?").length ≤ 200 ∧
      (∀ c ∈ (sanitize_filename "<>?").toList, isIllegalChar c = false) :=
  ⟨by decide, (sanitize_safe "<>?").2.2.2 (by decide),
    (sanitize_safe "<>?").2.1, (sanitize_safe "<>?").1⟩

/-- C2 (counterexample): in the keep-separate branch the audio download
uses the generic `"bestaudio"` selector even though the chosen option's
`best_audio_id` is `"140"` — the paired id is never consulted. -/
theorem separate_audio_selector_cex :
    entry137.best_audio_id = some "140" ∧
    (download_video envAllOk entry137 "separate").2.2.map DlCall.selector =
      ["137", "bestaudio"] ∧ ("bestaudio" : String) ≠ "140" := by
  decide

/-- C2 (amended): with policy keep-separate on a merge-needed option the
orchestrator issues exactly two downloads: the option's own format id for
the video stream, then always the generic `"bestaudio"` selector for the
audio stream, regardless of `best_audio_id`. -/
theorem separate_audio_selector (env : DlEnv) (fmt : MenuEntry)
    (hm : fmt.merge_needed = true) (hmk : env.mkdirOk = true)
    (hw : env.writable = true) (t : String) (hi : env.info = some t)
    (h1 : env.dl1Ok = true) :
    (download_video env fmt "separate").2.2.map DlCall.selector =
      [fmt.format_id, "bestaudio"] := by
  unfold download_video
  rw [hmk, hw, hi]
  simp only [Bool.true_eq_false, if_false]
  rw [if_neg (by simp [hm]), if_pos (by simp [hm])]
  rw [h1]
  simp only [Bool.true_eq_false, if_false]
  by_cases h2 : env.dl2Ok = false
  · rw [if_pos h2]; rfl
  · rw [if_neg h2]; rfl

/-- C2 (witness for the amended theorem) on the all-ok environment and the
Scenario A merge-needed entry. -/
theorem separate_audio_selector_witness :
    (download_video envAllOk entry137 "separate").2.2.map DlCall.selector =
      ["137", "bestaudio"] :=
  separate_audio_selector envAllOk entry137 rfl rfl rfl "My Video" rfl rfl

/-- C8: when the destination directory cannot be created or is not
writable, `download_video` fails with a directory error as its only event
and issues no download call. -/
theorem directory_error_first (env : DlEnv) (fmt : MenuEntry)
    (opt : String) (h : env.mkdirOk = false ∨ env.writable = false) :
    ∃ ev : DlEvent, download_video env fmt opt = (false, [ev], []) ∧
      (ev = DlEvent.dirCreateError ∨ ev = DlEvent.noWritePermissionError) := by
  unfold download_video
  by_cases hmk : env.mkdirOk = false
  · exact ⟨DlEvent.dirCreateError, by rw [if_pos hmk], Or.inl rfl⟩
  · rcases h with h | h
    · exact absurd h hmk
    · refine ⟨DlEvent.noWritePermissionError, ?_, Or.inr rfl⟩
      rw [if_neg hmk, if_pos h]

/-- C8 (witness): a concrete environment whose directory creation fails. -/
theorem directory_error_first_witness :
    ∃ ev : DlEvent,
      download_video
        { mkdirOk := false, writable := true, info := some "My Video",
          outputPath := "dl", dl1Ok := true, dl2Ok := true }
        entry137 "merge" = (false, [ev], []) ∧
      (ev = DlEvent.dirCreateError ∨ ev = DlEvent.noWritePermissionError) :=
  directory_error_first _ entry137 "merge" (Or.inl rfl)

/-- C9: a merge-needed option with any merge policy other than `"merge"`
or `"separate"` (for example the default `"auto"`) takes the plain-download
branch: one download of the bare video-only format id to `<base>.<ext>`,
no post-processor, and success is reported. -/
theorem auto_policy_plain_download (env : DlEnv) (fmt : MenuEntry)
    (opt : String) (hm : fmt.merge_needed = true)
    (ho1 : opt ≠ "merge") (ho2 : opt ≠ "separate")
    (hmk : env.mkdirOk = true) (hw : env.writable = true)
    (t : String) (hi : env.info = some t) (h1 : env.dl1Ok = true) :
    download_video env fmt opt =
      (true, [],
        [{ selector := fmt.format_id
           outtmpl := env.outputPath ++ "/" ++ sanitize_filename t ++ ".%(ext)s"
           postprocess := false }]) := by
  unfold download_video
  rw [hmk, hw, hi]
  simp only [Bool.true_eq_false, if_false]
  rw [if_neg (by simp [ho1]), if_neg (by simp [ho2]), h1]
  rfl

/-- C9 (witness) with the default policy value `"auto"`. -/
theorem auto_policy_plain_download_witness :
    download_video envAllOk entry137 "auto" =
      (true, [],
        [{ selector := "137", outtmpl := "dl/My Video.%(ext)s",
           postprocess := false }]) := by
  have h := auto_policy_plain_download envAllOk entry137 "auto" rfl
    (by decide) (by decide) rfl rfl "My Video" rfl rfl
  rw [h]
  decide

/-- C5 (witness): Scenario A has an audio-only descriptor, and the theorem
applies to it. -/
theorem merge_pairing_witness :
    audioFormatsOf scenarioA ≠ [] ∧
      ∃ b : RawFmt, b ∈ audioFormatsOf scenarioA ∧
        (∀ g ∈ audioFormatsOf scenarioA, abrKey g ≤ abrKey b) ∧
        (audioFormatsOf scenarioA).find?
          (fun g => decide (abrKey b ≤ abrKey g)) = some b ∧
        ∀ e ∈ get_video_formats scenarioA false, e.merge_needed = true →
          e.best_audio_id = some b.format_id :=
  ⟨by decide, merge_pairing scenarioA false (by decide)⟩

/-- C10 (witness): the concrete no-height descriptor with both codecs. -/
theorem video_without_height_witness :
    descrNoHeight.vcodec.getD "none" ≠ "none" ∧ descrNoHeight.height = none ∧
      (classify none false descrNoHeight = none) ∧
      (descrNoHeight.format_id ≠ "" → descrNoHeight.acodec.getD "none" ≠ "none" →
        (classify none true descrNoHeight).map
            (fun p => (p.1, p.2.priority, p.2.merge_needed, p.2.has_audio)) =
          some (FormatKey.audioOnly descrNoHeight.abr, 3, false, true)) ∧
      (descrNoHeight.acodec.getD "none" = "none" →
        classify none true descrNoHeight = none) ∧
      (∀ (l : List RawFmt) (s : Bool) (e : MenuEntry),
        e ∈ get_video_formats l s →
          ∃ g ∈ l, ∃ k, classify (bestAudioOf l) s g = some (k, e)) :=
  ⟨by decide, by decide,
    video_without_height descrNoHeight (by decide) (by decide) none⟩
